import Mathlib

/-!
Shallow embedding of `src/chapter13/lenet_with_summary.py`, a MindSpore
tutorial script that trains LeNet-5 on MNIST while recording scalar and
image summaries.  The embedding models:

* the dataset pipeline built by `create_dataset` (per-sample transforms,
  bounded shuffle buffer, batching with `drop_remainder=True`, repeat);
* the LeNet-5 forward pass `LeNet5.construct`, both at the shape level
  (to settle shape claims) and as an instrumented trace (to settle the
  ordering claim about the image summary);
* the loss cell `CrossEntropyLoss.construct` over real-valued tensors;
* the `main` driver and the `__main__` argparse block.

Per-sample transforms are represented symbolically: each sample carries
the ordered list of label and image operations that the pipeline has
applied to it, so claims about which transforms run and in which order
become statements about those traces.  Numeric parameters of the rescale
transform (scale `1.0/255.0`, shift `0.0`) are carried exactly as the
integer triple (numerator 1, denominator 255, shift 0).
-/

/-- Interpolation modes of `mindspore.dataset.transforms.vision.Inter`;
the script uses `Inter.LINEAR` (bilinear). -/
inductive Interp
  | linear
  | nearest
  | bicubic
deriving DecidableEq, Repr

/-- Target dtypes of `C.TypeCast`; the script casts labels to `mstype.int32`. -/
inductive DType
  | int32
deriving DecidableEq, Repr

/-- Image transforms applied by `create_dataset`'s map operations
(`transforms.Resize`, `transforms.Rescale`, `transforms.HWC2CHW`).
`rescale n d sh` stands for `Rescale(n/d, sh)`; the script builds
`Rescale(1.0/255.0, 0.0)`, i.e. `rescale 1 255 0`. -/
inductive ImgOp
  | resize (h w : Nat) (interp : Interp)
  | rescale (scaleNum scaleDen shift : Nat)
  | hwc2chw
deriving DecidableEq, Repr

/-- Label transforms applied by `create_dataset` (`C.TypeCast(mstype.int32)`). -/
inductive LblOp
  | typeCast (t : DType)
deriving DecidableEq, Repr

/-- A dataset row: the raw record read by `dataset.MnistDataset`, together
with the ordered traces of label and image operations the pipeline has
applied to it so far. -/
structure Sample (α : Type) where
  raw : α
  labelOps : List LblOp
  imageOps : List ImgOp
deriving DecidableEq, Repr

/-- Semantics of `ds.map(input_columns="label", operations=op)` on one row:
the operation is appended to the row's label trace. -/
def mapLabel {α : Type} (op : LblOp) (s : Sample α) : Sample α :=
  { s with labelOps := s.labelOps ++ [op] }

/-- Semantics of `ds.map(input_columns="image", operations=op)` on one row:
the operation is appended to the row's image trace. -/
def mapImage {α : Type} (op : ImgOp) (s : Sample α) : Sample α :=
  { s with imageOps := s.imageOps ++ [op] }

/-- Rows produced by `dataset.MnistDataset(data_path)`: the raw records of
the source, with no transform applied yet. -/
def mnistDataset {α : Type} (records : List α) : List (Sample α) :=
  records.map (fun a => ⟨a, [], []⟩)

/-- Drain phase of a bounded shuffle buffer: once the input is exhausted,
repeatedly pick a pseudo-random position of the remaining buffer, emit the
element there and delete it.  `rnd` supplies the random draws and `fuel`
bounds the recursion (callers pass the buffer length). -/
def drainGo {β : Type} (rnd : Nat → Nat) : Nat → Nat → List β → List β
  | _, _, [] => []
  | 0, _, _ :: _ => []
  | fuel + 1, k, x :: xs =>
    let buf := x :: xs
    let i := rnd k % buf.length
    buf.getD i x :: drainGo rnd fuel (k + 1) (buf.eraseIdx i)

/-- Streaming phase of a bounded shuffle buffer: while input remains, pick a
pseudo-random buffer position, emit the element there and overwrite it with
the next input element; when input ends, drain the buffer. -/
def shufGo {β : Type} (rnd : Nat → Nat) : Nat → List β → List β → List β
  | k, buf, [] => drainGo rnd buf.length k buf
  | k, [], a :: rest => a :: shufGo rnd k [] rest
  | k, x :: xs, a :: rest =>
    let buf := x :: xs
    let i := rnd k % buf.length
    buf.getD i x :: shufGo rnd (k + 1) (buf.set i a) rest

/-- Semantics of `ds.shuffle(buffer_size=N)`: a bounded shuffle buffer of
capacity `N` driven by the pseudo-random draws `rnd`. -/
def datasetShuffle {β : Type} (rnd : Nat → Nat) (buffer_size : Nat) (xs : List β) : List β :=
  shufGo rnd 0 (xs.take buffer_size) (xs.drop buffer_size)

/-- Worker of `datasetBatch`; `fuel` bounds the recursion (callers pass the
input length, which suffices because every step consumes input or stops). -/
def batchGo {β : Type} (batch_size : Nat) (drop_remainder : Bool) :
    Nat → List β → List (List β)
  | _, [] => []
  | 0, _ :: _ => []
  | fuel + 1, x :: xs =>
    let l := x :: xs
    if batch_size ≤ l.length then
      l.take batch_size :: batchGo batch_size drop_remainder fuel (l.drop batch_size)
    else if drop_remainder then [] else [l]

/-- Semantics of `ds.batch(batch_size, drop_remainder)`: group consecutive
rows into batches of `batch_size`; with `drop_remainder = true` a trailing
incomplete group is discarded, otherwise it is emitted as a short batch. -/
def datasetBatch {β : Type} (batch_size : Nat) (drop_remainder : Bool) (xs : List β) :
    List (List β) :=
  batchGo batch_size drop_remainder xs.length xs

/-- Semantics of `ds.repeat(n)`: the whole sequence, `n` times in a row. -/
def datasetRepeat {β : Type} : Nat → List β → List β
  | 0, _ => []
  | n + 1, xs => xs ++ datasetRepeat n xs

/-- Embedding of `create_dataset` (lines 55-85): read the source records,
cast labels to int32, resize images to 32x32 bilinearly, rescale by 1/255
with shift 0, convert HWC to CHW, shuffle through a buffer of capacity
10000, batch with `drop_remainder=True`, and repeat `repeat_size` times.
`rnd` supplies the shuffle's random draws; `num_parallel_workers` is kept
from the source signature but does not affect the sequential semantics. -/
def create_dataset {α : Type} (rnd : Nat → Nat) (data_path : List α)
    (batch_size : Nat) (repeat_size : Nat) (num_parallel_workers : Nat) :
    List (List (Sample α)) :=
  let _ := num_parallel_workers
  let mnist_ds := mnistDataset data_path
  let mnist_ds := mnist_ds.map (mapLabel (LblOp.typeCast DType.int32))
  let mnist_ds := mnist_ds.map (mapImage (ImgOp.resize 32 32 Interp.linear))
  let mnist_ds := mnist_ds.map (mapImage (ImgOp.rescale 1 255 0))
  let mnist_ds := mnist_ds.map (mapImage ImgOp.hwc2chw)
  let buffer_size := 10000
  let mnist_ds := datasetShuffle rnd buffer_size mnist_ds
  let mnist_ds := datasetBatch batch_size true mnist_ds
  datasetRepeat repeat_size mnist_ds

lemma getD_mem_of_default_mem {β : Type} (l : List β) (i : Nat) (d : β) (hd : d ∈ l) :
    l.getD i d ∈ l := by
  rcases h : l[i]? with _ | y
  · simpa [List.getD, h] using hd
  · have : y ∈ l := List.getElem?_mem h
    simpa [List.getD, h] using this

lemma drainGo_length {β : Type} (rnd : Nat → Nat) :
    ∀ (fuel k : Nat) (buf : List β), buf.length ≤ fuel →
      (drainGo rnd fuel k buf).length = buf.length := by
  intro fuel
  induction fuel with
  | zero =>
    intro k buf h
    cases buf with
    | nil => simp [drainGo]
    | cons x xs => simp at h
  | succ fuel ih =>
    intro k buf h
    cases buf with
    | nil => simp [drainGo]
    | cons x xs =>
      have hi : rnd k % (x :: xs).length < (x :: xs).length :=
        Nat.mod_lt _ (by simp)
      have herase : ((x :: xs).eraseIdx (rnd k % (x :: xs).length)).length
          = (x :: xs).length - 1 := by
        rw [List.length_eraseIdx]
        simp only [List.length_cons] at hi ⊢
        simp [hi]
      have hle : ((x :: xs).eraseIdx (rnd k % (x :: xs).length)).length ≤ fuel := by
        rw [herase]
        simp at h ⊢
        omega
      simp only [drainGo]
      rw [List.length_cons, ih (k + 1) _ hle, herase]
      simp only [List.length_cons]
      omega

lemma drainGo_subset {β : Type} (rnd : Nat → Nat) :
    ∀ (fuel k : Nat) (buf : List β) (z : β), z ∈ drainGo rnd fuel k buf → z ∈ buf := by
  intro fuel
  induction fuel with
  | zero =>
    intro k buf z hz
    cases buf with
    | nil => simp [drainGo] at hz
    | cons x xs => simp [drainGo] at hz
  | succ fuel ih =>
    intro k buf z hz
    cases buf with
    | nil => simp [drainGo] at hz
    | cons x xs =>
      simp only [drainGo, List.mem_cons] at hz
      rcases hz with hz | hz
      · subst hz
        exact getD_mem_of_default_mem _ _ _ (by simp)
      · have := ih (k + 1) _ z hz
        exact (List.eraseIdx_subset _ _) this

lemma shufGo_nil {β : Type} (rnd : Nat → Nat) (k : Nat) (buf : List β) :
    shufGo rnd k buf [] = drainGo rnd buf.length k buf := by
  cases buf <;> rfl

lemma shufGo_length {β : Type} (rnd : Nat → Nat) :
    ∀ (rest : List β) (k : Nat) (buf : List β),
      (shufGo rnd k buf rest).length = buf.length + rest.length := by
  intro rest
  induction rest with
  | nil =>
    intro k buf
    rw [shufGo_nil, drainGo_length rnd buf.length k buf (le_refl _)]
    simp
  | cons a rest ih =>
    intro k buf
    cases buf with
    | nil => simp [shufGo, ih]
    | cons x xs =>
      simp only [shufGo, List.length_cons]
      rw [ih]
      simp
      omega

lemma shufGo_subset {β : Type} (rnd : Nat → Nat) :
    ∀ (rest : List β) (k : Nat) (buf : List β) (z : β),
      z ∈ shufGo rnd k buf rest → z ∈ buf ∨ z ∈ rest := by
  intro rest
  induction rest with
  | nil =>
    intro k buf z hz
    rw [shufGo_nil] at hz
    exact Or.inl (drainGo_subset rnd buf.length k buf z hz)
  | cons a rest ih =>
    intro k buf z hz
    cases buf with
    | nil =>
      simp only [shufGo, List.mem_cons] at hz
      rcases hz with hz | hz
      · exact Or.inr (by simp [hz])
      · rcases ih k [] z hz with h | h
        · simp at h
        · exact Or.inr (by simp [h])
    | cons x xs =>
      simp only [shufGo, List.mem_cons] at hz
      rcases hz with hz | hz
      · exact Or.inl (by
          subst hz
          exact getD_mem_of_default_mem _ _ _ (by simp))
      · rcases ih (k + 1) _ z hz with h | h
        · rcases List.mem_or_eq_of_mem_set h with h' | h'
          · exact Or.inl h'
          · exact Or.inr (by simp [h'])
        · exact Or.inr (by simp [h])

lemma datasetShuffle_length {β : Type} (rnd : Nat → Nat) (n : Nat) (xs : List β) :
    (datasetShuffle rnd n xs).length = xs.length := by
  unfold datasetShuffle
  rw [shufGo_length]
  simp
  omega

lemma datasetShuffle_subset {β : Type} (rnd : Nat → Nat) (n : Nat) (xs : List β) (z : β)
    (hz : z ∈ datasetShuffle rnd n xs) : z ∈ xs := by
  unfold datasetShuffle at hz
  rcases shufGo_subset rnd _ _ _ z hz with h | h
  · exact List.take_subset _ _ h
  · exact List.drop_subset _ _ h

lemma batchGo_mem_length {β : Type} (b : Nat) :
    ∀ (fuel : Nat) (xs : List β) (c : List β),
      c ∈ batchGo b true fuel xs → c.length = b := by
  intro fuel
  induction fuel with
  | zero =>
    intro xs c hc
    cases xs with
    | nil => simp [batchGo] at hc
    | cons x l => simp [batchGo] at hc
  | succ fuel ih =>
    intro xs c hc
    cases xs with
    | nil => simp [batchGo] at hc
    | cons x l =>
      simp only [batchGo] at hc
      by_cases hb : b ≤ (x :: l).length
      · rw [if_pos hb] at hc
        rcases List.mem_cons.mp hc with hc | hc
        · subst hc
          rw [List.length_take]
          simp only [List.length_cons] at hb ⊢
          omega
        · exact ih _ c hc
      · rw [if_neg hb] at hc
        simp at hc

lemma batchGo_mem_subset {β : Type} (b : Nat) (dr : Bool) :
    ∀ (fuel : Nat) (xs : List β) (c : List β) (z : β),
      c ∈ batchGo b dr fuel xs → z ∈ c → z ∈ xs := by
  intro fuel
  induction fuel with
  | zero =>
    intro xs c z hc _
    cases xs with
    | nil => simp [batchGo] at hc
    | cons x l => simp [batchGo] at hc
  | succ fuel ih =>
    intro xs c z hc hz
    cases xs with
    | nil => simp [batchGo] at hc
    | cons x l =>
      simp only [batchGo] at hc
      by_cases hb : b ≤ (x :: l).length
      · rw [if_pos hb] at hc
        rcases List.mem_cons.mp hc with hc | hc
        · subst hc
          exact List.take_subset _ _ hz
        · exact List.drop_subset _ _ (ih _ c z hc hz)
      · rw [if_neg hb] at hc
        cases dr with
        | true => simp at hc
        | false =>
          simp at hc
          subst hc
          exact hz

lemma datasetRepeat_subset {β : Type} :
    ∀ (n : Nat) (xs : List β) (z : β), z ∈ datasetRepeat n xs → z ∈ xs := by
  intro n
  induction n with
  | zero =>
    intro xs z hz
    simp [datasetRepeat] at hz
  | succ n ih =>
    intro xs z hz
    simp only [datasetRepeat, List.mem_append] at hz
    rcases hz with hz | hz
    · exact hz
    · exact ih xs z hz

/-- Tensor shape: the list of dimension sizes, outermost dimension first. -/
abbrev Shape := List Nat

/-- Shape semantics of `nn.Conv2d(in_channels, out_channels, kernel_size,
stride=1, padding=0, pad_mode="valid", has_bias=False)` as built by `conv`
(lines 88-92): on an NCHW input whose channel count matches and whose
spatial extent fits the kernel, the output has `out_channels` channels and
spatial size shrunk by `kernel_size - 1`. -/
def conv2dShape (in_channels out_channels kernel_size : Nat) (s : Shape) : Option Shape :=
  match s with
  | [b, c, h, w] =>
    if c = in_channels ∧ kernel_size ≤ h ∧ kernel_size ≤ w then
      some [b, out_channels, h - kernel_size + 1, w - kernel_size + 1]
    else none
  | _ => none

/-- Shape semantics of `nn.MaxPool2d(kernel_size, stride)` with the default
valid padding (line 120): spatial dims become `(d - kernel_size) / stride + 1`. -/
def maxPool2dShape (kernel_size stride : Nat) (s : Shape) : Option Shape :=
  match s with
  | [b, c, h, w] =>
    if 0 < stride ∧ kernel_size ≤ h ∧ kernel_size ≤ w then
      some [b, c, (h - kernel_size) / stride + 1, (w - kernel_size) / stride + 1]
    else none
  | _ => none

/-- Shape semantics of `nn.ReLU()`: elementwise, any shape passes through. -/
def reluShape (s : Shape) : Option Shape := some s

/-- Shape semantics of `P.Reshape()` applied with target `(dim0, -1)`
(line 131): the element count must split evenly into `dim0` rows, and the
`-1` dimension is inferred as the quotient. -/
def reshapeShape (dim0 : Nat) (s : Shape) : Option Shape :=
  if 0 < dim0 ∧ dim0 ∣ s.prod then some [dim0, s.prod / dim0] else none

/-- Shape semantics of `nn.Dense(in_channels, out_channels)` as built by
`fc_with_initialize` (lines 95-98): a 2-d input whose feature dimension
matches `in_channels` maps to one with feature dimension `out_channels`. -/
def denseShape (in_channels out_channels : Nat) (s : Shape) : Option Shape :=
  match s with
  | [n, f] => if f = in_channels then some [n, out_channels] else none
  | _ => none

/-- The constant `self.batch_size = 32` set in `LeNet5.__init__` (line 113)
and used as the leading target dimension of the reshape on line 131. -/
def LeNet5.batch_size : Nat := 32

/-- Shape semantics of `LeNet5.construct` up to and including the flatten
(lines 125-131): conv1, relu, max-pool, conv2, relu, max-pool, then reshape
to `(self.batch_size, -1)`. -/
def LeNet5.flattenShape (x : Shape) : Option Shape :=
  (conv2dShape 1 6 5 x).bind (fun x1 =>
  (reluShape x1).bind (fun x2 =>
  (maxPool2dShape 2 2 x2).bind (fun x3 =>
  (conv2dShape 6 16 5 x3).bind (fun x4 =>
  (reluShape x4).bind (fun x5 =>
  (maxPool2dShape 2 2 x5).bind (fun x6 =>
  reshapeShape LeNet5.batch_size x6))))))

/-- Shape semantics of the full `LeNet5.construct` forward pass
(lines 123-137): the flatten prefix followed by fc1 (16*5*5 -> 120), relu,
fc2 (120 -> 84), relu, fc3 (84 -> 10). -/
def LeNet5.constructShape (x : Shape) : Option Shape :=
  (LeNet5.flattenShape x).bind (fun x7 =>
  (denseShape (16 * 5 * 5) 120 x7).bind (fun x8 =>
  (reluShape x8).bind (fun x9 =>
  (denseShape 120 84 x9).bind (fun x10 =>
  (reluShape x10).bind (fun x11 =>
  denseShape 84 10 x11)))))

/-- Events of one instrumented forward pass of `LeNet5.construct`: either a
summary record made by `P.ImageSummary` or the application of a named layer. -/
inductive NetOp (T : Type)
  | imageSummary (name : String) (value : T)
  | layer (name : String)
deriving DecidableEq, Repr

/-- The layer objects created in `LeNet5.__init__` (lines 109-121), kept
abstract: the ordering claim about `construct` holds for any value-level
interpretation of the layers. -/
structure Layers (T : Type) where
  conv1 : T → T
  conv2 : T → T
  fc1 : T → T
  fc2 : T → T
  fc3 : T → T
  relu : T → T
  max_pool2d : T → T
  reshape : T → Nat × Int → T

/-- Statement-by-statement embedding of `LeNet5.construct` (lines 123-137)
over abstract layers, returning the final tensor together with the ordered
trace of summary records and layer applications. -/
def LeNet5.construct {T : Type} (L : Layers T) (x : T) : T × List (NetOp T) :=
  let tr := [NetOp.imageSummary "image" x]
  let x := L.conv1 x
  let tr := tr ++ [NetOp.layer "conv1"]
  let x := L.relu x
  let tr := tr ++ [NetOp.layer "relu"]
  let x := L.max_pool2d x
  let tr := tr ++ [NetOp.layer "max_pool2d"]
  let x := L.conv2 x
  let tr := tr ++ [NetOp.layer "conv2"]
  let x := L.relu x
  let tr := tr ++ [NetOp.layer "relu"]
  let x := L.max_pool2d x
  let tr := tr ++ [NetOp.layer "max_pool2d"]
  let x := L.reshape x (LeNet5.batch_size, -1)
  let tr := tr ++ [NetOp.layer "reshape"]
  let x := L.fc1 x
  let tr := tr ++ [NetOp.layer "fc1"]
  let x := L.relu x
  let tr := tr ++ [NetOp.layer "relu"]
  let x := L.fc2 x
  let tr := tr ++ [NetOp.layer "fc2"]
  let x := L.relu x
  let tr := tr ++ [NetOp.layer "relu"]
  let x := L.fc3 x
  let tr := tr ++ [NetOp.layer "fc3"]
  (x, tr)

/-- Softmax of a logits row, with real-number semantics standing in for the
framework's floating-point kernel. -/
noncomputable def softmax (xs : List ℝ) : List ℝ :=
  xs.map (fun x => Real.exp x / (xs.map Real.exp).sum)

/-- Per-sample softmax cross-entropy of a logits row against a target
distribution row: the negative sum of target times log-softmax. -/
noncomputable def softmaxCrossEntropy (logits target : List ℝ) : ℝ :=
  -(List.zipWith (fun t p => t * Real.log p) target (softmax logits)).sum

/-- Semantics of `P.SoftmaxCrossEntropyWithLogits()` on a batch: the first
component is the per-sample loss vector, the second the per-sample gradient
(softmax minus target), of which `construct` uses only the first. -/
noncomputable def softmaxCrossEntropyWithLogits (logits target : List (List ℝ)) :
    List ℝ × List (List ℝ) :=
  (List.zipWith softmaxCrossEntropy logits target,
   List.zipWith (fun lrow trow => List.zipWith (fun p t => p - t) (softmax lrow) trow)
     logits target)

/-- Semantics of `P.OneHot()` on one label: a vector of length `depth` with
`on_value` at the label's index and `off_value` elsewhere. -/
def oneHot (idx depth : Nat) (on_value off_value : ℝ) : List ℝ :=
  (List.range depth).map (fun i => if i = idx then on_value else off_value)

/-- Second entry of `F.shape(logits)` for a 2-d batch-of-rows tensor: the
column (class) count, read off the first row. -/
def numCols (t : List (List ℝ)) : Nat := (t.headD []).length

/-- Semantics of `P.ReduceMean()` over the last (only) axis of a 1-d
tensor: the arithmetic mean. -/
noncomputable def reduceMean (xs : List ℝ) : ℝ := xs.sum / (xs.length : ℝ)

/-- Statement-by-statement embedding of `CrossEntropyLoss.construct`
(lines 47-52): one-hot encode the labels to depth `F.shape(logits)[1]` with
on-value 1.0 and off-value 0.0, take component 0 of the cross-entropy
primitive, reduce by mean over the last axis, record the result as the
scalar summary "loss", and return it.  The second component of the result
collects the scalar summary records made by `self.sm_scalar`. -/
noncomputable def CrossEntropyLoss.construct (logits : List (List ℝ)) (label : List Nat) :
    ℝ × List (String × ℝ) :=
  let label2 := label.map (fun c => oneHot c (numCols logits) 1 0)
  let loss := (softmaxCrossEntropyWithLogits logits label2).1
  let loss := reduceMean loss
  (loss, [("loss", loss)])

/-- Embedding of `os.path.join(a, b)` for POSIX paths with two components:
an absolute second component replaces the first; otherwise the parts are
concatenated, inserting "/" unless the first part is empty or already ends
in "/". -/
def osPathJoin (a b : String) : String :=
  if b.data.head? = some '/' then b
  else if a.data = [] ∨ a.data.getLast? = some '/' then a ++ b
  else a ++ "/" ++ b

/-- The trainable parameters registered by `LeNet5.__init__` (lines
109-121): one weight per conv layer (`has_bias=False` in `conv`), and a
weight and bias per dense layer (`fc_with_initialize` passes both). -/
def LeNet5.trainable_params : List String :=
  ["conv1.weight", "conv2.weight", "fc1.weight", "fc1.bias",
   "fc2.weight", "fc2.bias", "fc3.weight", "fc3.bias"]

/-- An optimizer object; `nn.Momentum(params, learning_rate, momentum)` is
the only one the script builds. -/
inductive Optimizer
  | momentum (params : List String) (learning_rate : ℚ) (momentum : ℚ)
deriving DecidableEq

/-- Observable events of one execution of `main` (lines 140-162), in
program order.  A Python exception raised inside `model.train` propagates
out of `main`, so the statements after the `train` call run only when
training completes normally. -/
inductive MainEvent
  | setContext (mode device : String)
  | openSummaryWriter (log_dir : String)
  | printStartBanner
  | trainStart (epoch : Nat) (flush_step : Nat) (dataset_sink_mode : Bool)
  | trainRaised
  | closeSummaryWriter
  | printEndBanner
deriving DecidableEq, Repr

/-- The configuration `main` assembles before training: execution context,
optimizer, trainer and summary settings, and the dataset request. -/
structure MainConfig where
  device_target : String
  momentum : ℚ
  epoch_size : Nat
  batch_size : Nat
  optimizer : Optimizer
  flush_step : Nat
  summary_dir : String
  dataset_path : String
  dataset_batch_size : Nat
deriving DecidableEq

/-- Statement-by-statement embedding of `main` (lines 140-162).
`trainCompletes` abstracts whether `model.train` returns normally or
raises; the body of `main` contains no try/except/finally, so on a raise
the remaining statements are skipped.  Returns the assembled configuration
and the ordered event trace. -/
def main_fn (data_path device_target summary_dir : String) (learning_rate : ℚ)
    (trainCompletes : Bool) : MainConfig × List MainEvent :=
  let momentum : ℚ := 9 / 10
  let epoch_size : Nat := 1
  let batch_size : Nat := 32
  let net_opt := Optimizer.momentum LeNet5.trainable_params learning_rate momentum
  let cfg : MainConfig :=
    { device_target := device_target
      momentum := momentum
      epoch_size := epoch_size
      batch_size := batch_size
      optimizer := net_opt
      flush_step := 10
      summary_dir := summary_dir
      dataset_path := osPathJoin data_path "train"
      dataset_batch_size := batch_size }
  let events :=
    [MainEvent.setContext "GRAPH_MODE" device_target,
     MainEvent.openSummaryWriter summary_dir,
     MainEvent.printStartBanner,
     MainEvent.trainStart epoch_size 10 false]
  let events :=
    if trainCompletes then
      events ++ [MainEvent.closeSummaryWriter, MainEvent.printEndBanner]
    else
      events ++ [MainEvent.trainRaised]
  (cfg, events)

/-- Value kinds an argparse flag of this script can carry
(`type=str` or `type=float`). -/
inductive CliType
  | str
  | float
deriving DecidableEq, Repr

/-- A default value of an argparse flag: a string or a float (floats are
carried as exact rationals). -/
inductive CliDefault
  | s (v : String)
  | f (v : ℚ)
deriving DecidableEq

/-- One `parser.add_argument` declaration: flag name, value type, the
`choices` restriction if any, and the default value. -/
structure CliFlag where
  flag : String
  valueType : CliType
  choices : Option (List String)
  default : CliDefault
deriving DecidableEq

/-- The four `parser.add_argument` calls of the `__main__` block
(lines 166-175), in source order. -/
def cliFlags : List CliFlag :=
  [{ flag := "--device_target", valueType := CliType.str,
     choices := some ["Ascend", "GPU", "CPU"], default := CliDefault.s "Ascend" },
   { flag := "--data_path", valueType := CliType.str,
     choices := none, default := CliDefault.s "./MNIST_Data" },
   { flag := "--summary_dir", valueType := CliType.str,
     choices := none, default := CliDefault.s "./summary_dir" },
   { flag := "--learning_rate", valueType := CliType.float,
     choices := none, default := CliDefault.f (1 / 100) }]

/-- The parsed argument namespace `args` of the `__main__` block. -/
structure CliArgs where
  device_target : String
  data_path : String
  summary_dir : String
  learning_rate : ℚ
deriving DecidableEq

/-- Embedding of the call `main(data_path=args.data_path, device_target=
args.device_target, summary_dir=args.summary_dir, learning_rate=
args.learning_rate)` on lines 179-182: the parsed values are handed to
`main` unchanged. -/
def scriptEntry (args : CliArgs) (trainCompletes : Bool) : MainConfig × List MainEvent :=
  main_fn args.data_path args.device_target args.summary_dir args.learning_rate trainCompletes

lemma datasetRepeat_length {β : Type} :
    ∀ (n : Nat) (xs : List β), (datasetRepeat n xs).length = n * xs.length := by
  intro n
  induction n with
  | zero => intro xs; simp [datasetRepeat]
  | succ n ih =>
    intro xs
    simp only [datasetRepeat, List.length_append, ih]
    ring

/-- C1 counterexample: at batch count 1 the forward pass does not produce
shape (1, 10); it fails, because the flatten reshapes to the hardcoded
leading dimension `self.batch_size = 32`. -/
theorem lenet_construct_shape_fails_at_batch_one :
    LeNet5.constructShape [1, 1, 32, 32] = none ∧
    LeNet5.constructShape [1, 1, 32, 32] ≠ some [1, 10] := by
  constructor
  · decide
  · decide

/-- C1 amended: the forward pass produces output shape (B, 10) exactly for
B = 32, the hardcoded `self.batch_size`; there the flatten produces
(32, 400); for every other batch count the reshape/dense stage fails. -/
theorem lenet_construct_shape_batch32_only :
    (∀ B : Nat, LeNet5.constructShape [B, 1, 32, 32] =
        if B = 32 then some [B, 10] else none)
    ∧ LeNet5.flattenShape [32, 1, 32, 32] = some [32, 400] := by
  refine ⟨?_, by decide⟩
  intro B
  by_cases hB : B = 32
  · subst hB
    decide
  · rw [if_neg hB]
    simp only [LeNet5.constructShape, LeNet5.flattenShape, conv2dShape, maxPool2dShape,
      reluShape, reshapeShape, denseShape, LeNet5.batch_size]
    norm_num [List.prod_cons]
    intro h1 h2
    exact absurd (by omega) hB

/-- C2 counterexample: in an execution of `main` where the training loop
raises, the summary writer is never closed (there is no try/finally). -/
theorem main_writer_not_closed_when_train_raises :
    MainEvent.closeSummaryWriter ∉ (main_fn "./MNIST_Data" "Ascend" "./summary_dir" (1 / 100) false).2 := by
  decide

/-- C2 amended: on every execution of `main` the summary writer is opened
before training, and it is closed before `main` terminates exactly when the
training loop completes normally; on a raising execution it is not closed. -/
theorem main_writer_close_iff_train_completes :
    ∀ (dp dt sd : String) (lr : ℚ) (b : Bool),
      MainEvent.openSummaryWriter sd ∈ (main_fn dp dt sd lr b).2 ∧
      (MainEvent.closeSummaryWriter ∈ (main_fn dp dt sd lr b).2 ↔ b = true) := by
  intro dp dt sd lr b
  cases b <;> simp [main_fn]

/-- C3: every batch yielded by `create_dataset` contains exactly
`batch_size` samples; with `drop_remainder=True` no short batch is ever
yielded. -/
theorem create_dataset_batches_have_exact_size {α : Type} :
    ∀ (rnd : Nat → Nat) (src : List α) (b r w : Nat) (batch : List (Sample α)),
      0 < b → batch ∈ create_dataset rnd src b r w → batch.length = b := by
  intro rnd src b r w batch _ hmem
  unfold create_dataset at hmem
  have h1 := datasetRepeat_subset r _ batch hmem
  exact batchGo_mem_length b _ _ batch h1

/-- C3 witness: with constant draws, source records 0..4 and batch size 2,
the batch holding the transformed records 0 and 1 is yielded and has
length 2 (record 4 does not fill a batch and is dropped). -/
theorem create_dataset_batches_have_exact_size_witness :
    ([⟨0, [LblOp.typeCast DType.int32],
        [ImgOp.resize 32 32 Interp.linear, ImgOp.rescale 1 255 0, ImgOp.hwc2chw]⟩,
      ⟨1, [LblOp.typeCast DType.int32],
        [ImgOp.resize 32 32 Interp.linear, ImgOp.rescale 1 255 0, ImgOp.hwc2chw]⟩] :
        List (Sample Nat)).length = 2 :=
  create_dataset_batches_have_exact_size (fun _ => 0) [0, 1, 2, 3, 4] 2 1 1 _
    (by decide) (by decide)

/-- Spec-side description of one fully transformed sample: the raw record
with the label cast and the three image transforms, in the spec's order. -/
def specTransformedSample {α : Type} (a : α) : Sample α :=
  ⟨a, [LblOp.typeCast DType.int32],
   [ImgOp.resize 32 32 Interp.linear, ImgOp.rescale 1 255 0, ImgOp.hwc2chw]⟩

/-- C4: `create_dataset` factors as repeat after batch after shuffle after a
single per-sample transform, so all per-sample transforms happen before
shuffling and batching; and every sample of every yielded batch carries
exactly the transform traces cast-int32 (label) and resize-32x32-bilinear,
rescale-1/255-shift-0, HWC-to-CHW (image), in that order. -/
theorem create_dataset_transform_order {α : Type} :
    ∀ (rnd : Nat → Nat) (src : List α) (b r w : Nat),
      create_dataset rnd src b r w =
        datasetRepeat r (datasetBatch b true
          (datasetShuffle rnd 10000 (src.map specTransformedSample)))
      ∧ ∀ (batch : List (Sample α)) (s : Sample α),
          batch ∈ create_dataset rnd src b r w → s ∈ batch →
            s.labelOps = [LblOp.typeCast DType.int32] ∧
            s.imageOps = [ImgOp.resize 32 32 Interp.linear,
                          ImgOp.rescale 1 255 0, ImgOp.hwc2chw] := by
  intro rnd src b r w
  have hfactor : create_dataset rnd src b r w =
      datasetRepeat r (datasetBatch b true
        (datasetShuffle rnd 10000 (src.map specTransformedSample))) := by
    unfold create_dataset mnistDataset
    simp only [List.map_map]
    rfl
  refine ⟨hfactor, ?_⟩
  intro batch s hb hs
  rw [hfactor] at hb
  have h1 := datasetRepeat_subset r _ batch hb
  have h2 : s ∈ datasetShuffle rnd 10000 (src.map specTransformedSample) :=
    batchGo_mem_subset b true _ _ batch s h1 hs
  have h3 : s ∈ src.map specTransformedSample := datasetShuffle_subset _ _ _ _ h2
  rcases List.mem_map.mp h3 with ⟨a, _, rfl⟩
  exact ⟨rfl, rfl⟩

/-- C4 witness: with constant draws, source records 0 and 1 and batch size
1, the batch holding transformed record 0 is yielded, contains that sample,
and the theorem yields its exact transform traces. -/
theorem create_dataset_transform_order_witness :
    (specTransformedSample (0 : Nat)).labelOps = [LblOp.typeCast DType.int32] ∧
    (specTransformedSample (0 : Nat)).imageOps =
      [ImgOp.resize 32 32 Interp.linear, ImgOp.rescale 1 255 0, ImgOp.hwc2chw] :=
  (create_dataset_transform_order (fun _ => 0) [0, 1] 1 1 1).2
    [specTransformedSample 0] (specTransformedSample 0) (by decide) (by decide)

/-- C5: the loss cell returns the mean over the batch of the per-sample
softmax cross-entropies of the logits against the one-hot (on 1.0, off 0.0)
encodings of the labels, and records exactly that scalar as the summary
named "loss". -/
theorem cross_entropy_loss_construct_spec :
    ∀ (logits : List (List ℝ)) (label : List Nat),
      (CrossEntropyLoss.construct logits label).1 =
        reduceMean (List.zipWith
          (fun row c => softmaxCrossEntropy row (oneHot c (numCols logits) 1 0))
          logits label)
      ∧ (CrossEntropyLoss.construct logits label).2 =
          [("loss", (CrossEntropyLoss.construct logits label).1)] := by
  intro logits label
  constructor
  · simp only [CrossEntropyLoss.construct, softmaxCrossEntropyWithLogits,
      List.zipWith_map_right]
  · rfl

/-- C6: with the same random draws and source, repeating the dataset twice
yields exactly twice as many batches as repeating it once: repetition
applies to the already-batched sequence. -/
theorem create_dataset_repeat_two_doubles_batches {α : Type} :
    ∀ (rnd : Nat → Nat) (src : List α) (b w : Nat),
      (create_dataset rnd src b 2 w).length = 2 * (create_dataset rnd src b 1 w).length := by
  intro rnd src b w
  unfold create_dataset
  rw [datasetRepeat_length, datasetRepeat_length]
  ring

/-- C7: on a normally completing run, `main` configures a momentum
optimizer with momentum 0.9 over the model's trainable parameters at the
caller's learning rate, an epoch count of 1, a summary flush every 10
steps into the caller's summary directory, and closes the summary writer
after training, before the closing banner. -/
theorem main_trainer_configuration :
    ∀ (dp dt sd : String) (lr : ℚ),
      (main_fn dp dt sd lr true).1.optimizer =
        Optimizer.momentum LeNet5.trainable_params lr (9 / 10)
      ∧ (main_fn dp dt sd lr true).1.epoch_size = 1
      ∧ (main_fn dp dt sd lr true).1.flush_step = 10
      ∧ (main_fn dp dt sd lr true).1.summary_dir = sd
      ∧ (main_fn dp dt sd lr true).2 =
          [MainEvent.setContext "GRAPH_MODE" dt,
           MainEvent.openSummaryWriter sd,
           MainEvent.printStartBanner,
           MainEvent.trainStart 1 10 false,
           MainEvent.closeSummaryWriter,
           MainEvent.printEndBanner] := by
  intro dp dt sd lr
  exact ⟨rfl, rfl, rfl, rfl, rfl⟩

/-- C8: every forward pass of `LeNet5.construct` records the untransformed
input tensor as the image summary named "image", and this record is the
first event of the pass, before any convolution, activation, pooling,
reshape or dense layer is applied. -/
theorem lenet_construct_records_input_image_first :
    ∀ (T : Type) (L : Layers T) (x : T),
      (LeNet5.construct L x).2 =
        NetOp.imageSummary "image" x ::
          List.map NetOp.layer
            ["conv1", "relu", "max_pool2d", "conv2", "relu", "max_pool2d",
             "reshape", "fc1", "relu", "fc2", "relu", "fc3"] := by
  intro T L x
  rfl

/-- C9: the argparse block declares exactly four flags - device_target (a
string restricted to Ascend, GPU, CPU, default Ascend), data_path (string,
default "./MNIST_Data"), summary_dir (string, default "./summary_dir") and
learning_rate (float, default 0.01) - and the parsed values are forwarded
unchanged to `main`. -/
theorem cli_flags_exact :
    cliFlags = [
      { flag := "--device_target", valueType := CliType.str,
        choices := some ["Ascend", "GPU", "CPU"], default := CliDefault.s "Ascend" },
      { flag := "--data_path", valueType := CliType.str,
        choices := none, default := CliDefault.s "./MNIST_Data" },
      { flag := "--summary_dir", valueType := CliType.str,
        choices := none, default := CliDefault.s "./summary_dir" },
      { flag := "--learning_rate", valueType := CliType.float,
        choices := none, default := CliDefault.f (1 / 100) }]
    ∧ cliFlags.length = 4
    ∧ ∀ (a : CliArgs) (b : Bool),
        scriptEntry a b = main_fn a.data_path a.device_target a.summary_dir a.learning_rate b := by
  exact ⟨rfl, rfl, fun a b => rfl⟩

/-- C10: `main` requests the training dataset from the "train"
subdirectory of `data_path`, and that path is never `data_path` itself. -/
theorem main_loads_train_subdirectory :
    ∀ (dp dt sd : String) (lr : ℚ) (b : Bool),
      (main_fn dp dt sd lr b).1.dataset_path = osPathJoin dp "train"
      ∧ (main_fn dp dt sd lr b).1.dataset_path ≠ dp := by
  intro dp dt sd lr b
  refine ⟨rfl, ?_⟩
  show osPathJoin dp "train" ≠ dp
  unfold osPathJoin
  rw [if_neg (by decide)]
  have h5 : ("train" : String).length = 5 := by decide
  by_cases h : dp.data = [] ∨ dp.data.getLast? = some '/'
  · rw [if_pos h]
    intro heq
    have := congrArg String.length heq
    rw [String.length_append, h5] at this
    omega
  · rw [if_neg h]
    intro heq
    have := congrArg String.length heq
    rw [String.length_append, String.length_append, h5] at this
    have h1 : ("/" : String).length = 1 := by decide
    rw [h1] at this
    omega
